import Mathlib

/-!
Verification of the calibration-and-sensitivity engine in `rateslib/solver.py`.

The numeric code is embedded shallowly: Python float arithmetic is modelled
exactly over an ordered commutative ring / field `α` (the claims under study
concern control flow, block placement and linear-algebra identities, not
floating-point rounding), numpy arrays become either `List (List α)` (where
numpy slice-assignment semantics matter) or Mathlib matrices over `Fin`
types (where linear-algebra identities matter), and code that can raise an
exception returns `Except String`.
-/

instance {ε α : Type} [DecidableEq ε] [DecidableEq α] : DecidableEq (Except ε α) := fun x y =>
  match x, y with
  | .ok a, .ok b => if h : a = b then .isTrue (by rw [h]) else .isFalse (by simp [h])
  | .error a, .error b => if h : a = b then .isTrue (by rw [h]) else .isFalse (by simp [h])
  | .ok _, .error _ => .isFalse (by simp)
  | .error _, .ok _ => .isFalse (by simp)

/-! ## List-based matrices (numpy arrays with slice assignment) -/

abbrev RMat (α : Type) := List (List α)

def getEntry {α : Type} [Zero α] (A : RMat α) (i j : ℕ) : α :=
  (((A.get? i).getD []).get? j).getD 0

def mkRMat {α : Type} (r c : ℕ) (f : ℕ → ℕ → α) : RMat α :=
  (List.range r).map (fun i => (List.range c).map (f i))

def zerosM {α : Type} [Zero α] (r c : ℕ) : RMat α := mkRMat r c (fun _ _ => 0)

def rowsOf {α : Type} (A : RMat α) : ℕ := A.length

def colsOf {α : Type} (A : RMat α) : ℕ := (A.head?.getD []).length

def matMulL {α : Type} [CommRing α] (A B : RMat α) : RMat α :=
  mkRMat (rowsOf A) (colsOf B)
    (fun i j => (List.range (rowsOf B)).foldl
      (fun acc k => acc + getEntry A i k * getEntry B k j) 0)

def transposeL {α : Type} [Zero α] (A : RMat α) : RMat α :=
  mkRMat (colsOf A) (rowsOf A) (fun i j => getEntry A j i)

def matNegL {α : Type} [CommRing α] (A : RMat α) : RMat α :=
  mkRMat (rowsOf A) (colsOf A) (fun i j => - getEntry A i j)

def matAddL {α : Type} [CommRing α] (A B : RMat α) : RMat α :=
  mkRMat (rowsOf A) (colsOf A) (fun i j => getEntry A i j + getEntry B i j)

/-- Python slice index normalisation: negative indices count from the end,
and out-of-range indices are clamped to `[0, len]`. -/
def pyIdx (len : ℕ) (v : Int) : ℕ :=
  if v < 0 then ((len : Int) + v).toNat else min v.toNat len

/-- numpy slice assignment `A[r0:r1, c0:c1] = B`, including the broadcast
check: each dimension of `B` must equal the target slice dimension or be 1
(a size-1 dimension of `B` is replicated, and broadcasts into an empty
slice by writing nothing).  On a broadcast mismatch numpy raises. -/
def sliceAssign {α : Type} [Zero α] (A : RMat α) (r0 r1 c0 c1 : Int) (B : RMat α) :
    Except String (RMat α) :=
  let nr := rowsOf A
  let nc := colsOf A
  let rs := pyIdx nr r0
  let re := pyIdx nr r1
  let cs := pyIdx nc c0
  let ce := pyIdx nc c1
  let lr := re - rs
  let lc := ce - cs
  let br := rowsOf B
  let bc := colsOf B
  if (br = lr ∨ br = 1) ∧ (bc = lc ∨ bc = 1) then
    Except.ok (mkRMat nr nc (fun r c =>
      if rs ≤ r ∧ r < re ∧ cs ≤ c ∧ c < ce then
        getEntry B (if br = 1 then 0 else r - rs) (if bc = 1 then 0 else c - cs)
      else getEntry A r c))
  else
    Except.error "could not broadcast input array into output slice"

/-! ## The solver dependency chain and `grad_s_vT_pre`

A solver in a dependency chain is modelled by the data `grad_s_vT_pre`
consumes: its own instrument count `m`, variable count `n`, its own
sensitivity `grad_s_vT` (an `(m, n)` matrix, produced upstream of this
function by the AD machinery), and its ordered pre-solvers.  Each chain
link carries the matrix `grad_v_r` = transpose of the stacked gradients of
the DOWNSTREAM solver's rates with respect to that link's aggregated
variables (shape `(link.pre_n, m)`), which in the source is extracted from
the AD rate objects inside the loop of `Solver.grad_s_vT_pre`. -/

mutual

inductive SolverTree (α : Type) where
  | node (pres : SolverForest α) (m n : ℕ) (gsvT : RMat α)

inductive SolverForest (α : Type) where
  | nil
  | cons (t : SolverTree α) (gvr : RMat α) (ts : SolverForest α)

end

mutual

/-- `pre_m` from `Solver.__init__`: own `m` plus the `pre_m` of every pre-solver. -/
def preM {α : Type} : SolverTree α → ℕ
  | .node pres m _ _ => preMF pres + m

def preMF {α : Type} : SolverForest α → ℕ
  | .nil => 0
  | .cons t _ ts => preM t + preMF ts

end

mutual

/-- `pre_n` from `Solver.__init__`: own `n` plus the `pre_n` of every pre-solver. -/
def preN {α : Type} : SolverTree α → ℕ
  | .node pres _ n _ => preNF pres + n

def preNF {α : Type} : SolverForest α → ℕ
  | .nil => 0
  | .cons t _ ts => preN t + preNF ts

end

mutual

/-- `Solver.grad_s_vT_pre`: with no pre-solvers, returns `grad_s_vT`;
otherwise builds a `(pre_m, pre_n)` zero matrix, loops over pre-solvers
assigning `A[i:m, j:n] = pre.grad_s_vT_pre` and
`A[i:m, -self.m:] = -(pre.grad_s_vT_pre @ (grad_v_r @ self.grad_s_vT))`
with `m, n = pre.pre_m, pre.pre_n` and `i, j` advanced by `m, n` each
pass (the slice end bounds are `m` and `n` exactly as in the source),
then sets the bottom-right block `A[-self.m:, -self.m:] = self.grad_s_vT`. -/
def gradSvTPre {α : Type} [CommRing α] : SolverTree α → Except String (RMat α)
  | .node pres m n gsvT =>
    match pres with
    | .nil => Except.ok gsvT
    | .cons _ _ _ =>
      let pm := preMF pres + m
      let pn := preNF pres + n
      match gradLoop pres m gsvT pn (zerosM pm pn) 0 0 with
      | .error e => .error e
      | .ok A => sliceAssign A (-(m : Int)) (pm : Int) (-(m : Int)) (pn : Int) gsvT

def gradLoop {α : Type} [CommRing α] :
    SolverForest α → ℕ → RMat α → ℕ → RMat α → ℕ → ℕ → Except String (RMat α)
  | .nil, _, _, _, A, _, _ => .ok A
  | .cons t gvr ts, selfM, gsvT, pn, A, i, j =>
    match gradSvTPre t with
    | .error e => .error e
    | .ok gp =>
      let mk := preM t
      let nk := preN t
      let block := matNegL (matMulL gp (matMulL gvr gsvT))
      match sliceAssign A (i : Int) (mk : Int) (j : Int) (nk : Int) gp with
      | .error e => .error e
      | .ok A1 =>
        match sliceAssign A1 (i : Int) (mk : Int) (-(selfM : Int)) (pn : Int) block with
        | .error e => .error e
        | .ok A2 => gradLoop ts selfM gsvT pn A2 (i + mk) (j + nk)

end

/-! ## The iteration controller `Solver.iterate`

The loop body is embedded over an abstract mutable-state type `σ` (the
curves): `f` evaluates the objective's real part on the current state (the
objective depends on the curves through the priced rates) and `step`
performs the per-cycle mutation — `_update_step_` followed by overwriting
the solver-controlled curve nodes, `csolve`, `_reset_properties_` and
`_update_fx`.  Scalars live in a linear ordered commutative ring `α`
standing for the Python floats.  `iterate` initialises
`f_prev, f_list = 1e10, []` and runs up to `max_iter` cycles; each cycle
appends the objective to the history, returns the `conv_tol` outcome when
the objective strictly decreased by less than `conv_tol`, otherwise the
`func_tol` outcome when the objective is below `func_tol`, and otherwise
steps.  Exhausting `max_iter` prints a failure message and returns
normally (the source's `raise` on that path is commented out). -/

inductive IterResult where
  | convergedConv
  | convergedFunc
  | maxIterExhausted
deriving DecidableEq

def fPrevInit (α : Type) [LinearOrderedCommRing α] : α := 10000000000

def lambdInit (α : Type) [LinearOrderedCommRing α] : α := 1000

def iterateFrom {σ α : Type} [LinearOrderedCommRing α] (f : σ → α) (step : σ → σ)
    (funcTol convTol : α) : ℕ → α → List α → σ → IterResult × List α × σ
  | 0, _, hist, st => (IterResult.maxIterExhausted, hist, st)
  | Nat.succ k, fPrev, hist, st =>
    let fVal := f st
    let hist2 := hist ++ [fVal]
    if fVal < fPrev ∧ fPrev - fVal < convTol then
      (IterResult.convergedConv, hist2, st)
    else if fVal < funcTol then
      (IterResult.convergedFunc, hist2, st)
    else
      iterateFrom f step funcTol convTol k fVal hist2 (step st)

def iterateRun {σ α : Type} [LinearOrderedCommRing α] (f : σ → α) (step : σ → σ)
    (funcTol convTol : α) (maxIter : ℕ) (st : σ) : IterResult × List α × σ :=
  iterateFrom f step funcTol convTol maxIter (fPrevInit α) [] st

/-- The `f_prev` register as seen at the start of cycle `i` of the loop:
its initial value for `i = 0`, and the objective of the previous cycle's
state afterwards. -/
def fPrevAt {σ α : Type} [LinearOrderedCommRing α] (f : σ → α) (step : σ → σ)
    (fPrev : α) (st : σ) : ℕ → α
  | 0 => fPrev
  | Nat.succ i => f (step^[i] st)

/-! ## Step algorithms `Solver._update_step_`

`np.linalg.solve(A, b)` returns the exact solution of `A · x = b` for an
invertible `A`; over the field `ℚ` it is embedded as multiplication by the
exact inverse `det⁻¹ • adjugate`, which agrees with `A⁻¹` for invertible
`A`.  The Jacobian `J` has shape `(n, m)` = (variables, instruments) as in
the source. -/

def linSolve {k : ℕ} (A : Matrix (Fin k) (Fin k) ℚ) (b : Fin k → ℚ) : Fin k → ℚ :=
  ((A.det)⁻¹ • A.adjugate).mulVec b

theorem linSolve_spec {k : ℕ} (A : Matrix (Fin k) (Fin k) ℚ) (b : Fin k → ℚ)
    (h : IsUnit A.det) : A.mulVec (linSolve A b) = b := by
  have hd : A.det ≠ 0 := by
    intro h0
    rw [h0] at h
    simp at h
  calc A.mulVec (linSolve A b)
      = (A * ((A.det)⁻¹ • A.adjugate)).mulVec b := by
        rw [linSolve, ← Matrix.mulVec_mulVec]
    _ = ((A.det)⁻¹ • (A * A.adjugate)).mulVec b := by rw [Matrix.mul_smul]
    _ = ((A.det)⁻¹ • (A.det • (1 : Matrix (Fin k) (Fin k) ℚ))).mulVec b := by
        rw [Matrix.mul_adjugate]
    _ = ((1 : Matrix (Fin k) (Fin k) ℚ)).mulVec b := by
        rw [smul_smul, inv_mul_cancel₀ hd, one_smul]
    _ = b := Matrix.one_mulVec b

/-- The `levenberg_marquardt` damping update,
`self.lambd *= 2 if self.f_prev < self.f.real else 0.25`. -/
def lmUpdate (lambd fPrev f : ℚ) : ℚ :=
  if fPrev < f then lambd * 2 else lambd * (1 / 4)

/-- The `levenberg_marquardt` system matrix `J @ W @ J.T + lambd * eye(n)`. -/
def lmMatrix {n m : ℕ} (J : Matrix (Fin n) (Fin m) ℚ) (W : Matrix (Fin m) (Fin m) ℚ)
    (lambd : ℚ) : Matrix (Fin n) (Fin n) ℚ :=
  J * W * J.transpose + lambd • (1 : Matrix (Fin n) (Fin n) ℚ)

/-- The `levenberg_marquardt` step `delta = solve(A, -0.5 * grad_v_f)`. -/
def lmDelta {n m : ℕ} (J : Matrix (Fin n) (Fin m) ℚ) (W : Matrix (Fin m) (Fin m) ℚ)
    (lambd : ℚ) (gradf : Fin n → ℚ) : Fin n → ℚ :=
  linSolve (lmMatrix J W lambd) ((-(1 / 2) : ℚ) • gradf)

/-- The `levenberg_marquardt` branch of `Solver._update_step_`: update the
damping factor from the stored `f_prev` and the current objective, then
`v_1 = v + delta`.  Returns the new `(lambd, v_1)` pair (the source
mutates `self.lambd` in place). -/
def lmStep {n m : ℕ} (J : Matrix (Fin n) (Fin m) ℚ) (W : Matrix (Fin m) (Fin m) ℚ)
    (lambd fPrev f : ℚ) (gradf v : Fin n → ℚ) : ℚ × (Fin n → ℚ) :=
  let lambd2 := lmUpdate lambd fPrev f
  (lambd2, v + lmDelta J W lambd2 gradf)

/-- The square-system matrix of the `gauss_newton` branch: `A = J.T`, with
the instrument index re-expressed along `n = m`. -/
def gnSquareA {n m : ℕ} (h : n = m) (J : Matrix (Fin n) (Fin m) ℚ) :
    Matrix (Fin n) (Fin n) ℚ :=
  fun i j => J.transpose (Fin.cast h i) j

/-- The `gauss_newton` branch of `Solver._update_step_`: for a square
Jacobian solve `J.T @ delta = -x` directly, otherwise solve the normal
equations `(J @ W @ J.T) @ delta = -0.5 * grad_v_f`; then `v_1 = v + delta`. -/
def gnStep (n m : ℕ) (J : Matrix (Fin n) (Fin m) ℚ) (W : Matrix (Fin m) (Fin m) ℚ)
    (x : Fin m → ℚ) (gradf v : Fin n → ℚ) : Fin n → ℚ :=
  if h : n = m then
    v + linSolve (gnSquareA h J) (fun i => -(x (Fin.cast h i)))
  else
    v + linSolve (J * W * J.transpose) ((-(1 / 2) : ℚ) • gradf)

/-! ## Scoped mutation in the first-order sensitivity strategies

The target vector `self.s` holds numeric entries that are either plain
floats, `Dual`-tagged or `Dual2`-tagged AD scalars; only the tagging is
observable for the restoration claims.  The computation performed between
the mutation and the restoration (`_update_step_` plus gradient
extraction for the dual strategy; `f.gradient(..., order=2)` plus
`np.linalg.solve` for the fixed-point strategy) involves the external AD
and pricing collaborators and can raise, so it is passed in as a function
returning `Except`.  The embeddings are state-passing: they return the
result together with the final solver state, and an exception propagates
with whatever state was current when it was raised — the source has no
`try`/`finally`. -/

inductive SEntry where
  | plain (v : ℚ)
  | dual (v : ℚ) (tag : ℕ)
  | dual2 (v : ℚ) (tag : ℕ)
deriving DecidableEq

def entryVal : SEntry → ℚ
  | .plain v => v
  | .dual v _ => v
  | .dual2 v _ => v

/-- `self.s = np.array([Dual(v, f"s{i}") for i, v in enumerate(self.s)])`. -/
def retagDual (s : List SEntry) : List SEntry :=
  ((List.range s.length).zip s).map (fun p => SEntry.dual (entryVal p.2) p.1)

/-- `self.s = np.array([Dual2(v, f"s{i}") for i, v in enumerate(self.s)])`. -/
def retagDual2 (s : List SEntry) : List SEntry :=
  ((List.range s.length).zip s).map (fun p => SEntry.dual2 (entryVal p.2) p.1)

structure SensState where
  ad : ℕ
  s : List SEntry
deriving DecidableEq

/-- `Solver._grad_s_vT_final_iteration_dual`: save `_s = self.s`, install
`Dual`-tagged targets, run the final-iteration step and gradient
extraction, restore `self.s = _s`, return the gradient.  An exception in
the middle propagates with the tagged targets still installed. -/
def gradSvTDual (inner : SensState → Except String (RMat ℚ)) (st : SensState) :
    Except String (RMat ℚ) × SensState :=
  let sBack := st.s
  let stD : SensState := { st with s := retagDual st.s }
  match inner stD with
  | .error e => (.error e, stD)
  | .ok g => (.ok g, { stD with s := sBack })

/-- `Solver._grad_s_vT_fixed_point_iteration`: `_set_ad_order(2)`, save
`_s = self.s`, install `Dual2`-tagged targets, extract the second-order
gradient of the objective and solve the partitioned linear system, then
restore `self.s = _s` and `_set_ad_order(1)` (the order is set to the
constant 1, not to its prior value).  An exception in the middle
propagates with order 2 and the tagged targets still installed. -/
def gradSvTFixedPoint (inner : SensState → Except String (RMat ℚ)) (st : SensState) :
    Except String (RMat ℚ) × SensState :=
  let st1 : SensState := { st with ad := 2 }
  let sBack := st1.s
  let stD : SensState := { st1 with s := retagDual2 st1.s }
  match inner stD with
  | .error e => (.error e, stD)
  | .ok g => (.ok g, { stD with s := sBack, ad := 1 })

/-! ## Second-order quantities: `Solver.J2` and `Solver.gamma`

`J2` is a memoized property: its body runs only when the cache `self._J2`
is `None`, and only inside that cache-miss branch does it guard on the AD
order before pricing the instruments and extracting order-2 gradients
through the external AD collaborators (that computation is passed in as
`compute`); a cached tensor is returned unconditionally.  `_set_ad_order`
sets `self._ad` and propagates the order to the curves and FX object but
does not call `_reset_properties_`, so caches survive an order switch.
`gamma` guards on the AD order unconditionally and then returns
`self._gamma_inst_arr_local(npv)` immediately — everything after that
`return`, including all use of `base` and `fx` and the missing-FX
configuration error, is unreachable and is therefore not part of the
embedding. -/

/-- The state `Solver.J2` reads and writes: the AD order `self._ad` and
the cache `self._J2` (`none` standing for Python `None`). -/
structure AdState where
  ad : ℕ
  J2cache : Option (List (RMat ℚ))
deriving DecidableEq

/-- `Solver._set_ad_order`: overwrites `self._ad` (and propagates the
order to pre-solvers, curves and FX); it performs no
`_reset_properties_`, so the `J2` cache is left in place. -/
def setAdOrder (order : ℕ) (st : AdState) : AdState :=
  { st with ad := order }

/-- `Solver.J2`: if `self._J2 is None`, raise unless the AD order is 2,
otherwise compute and cache the tensor; finally return `self._J2`.  A
failure of the inner computation propagates with the cache still empty. -/
def J2run (compute : Except String (List (RMat ℚ))) (st : AdState) :
    Except String (List (RMat ℚ)) × AdState :=
  match st.J2cache with
  | some t => (.ok t, st)
  | none =>
    if st.ad ≠ 2 then
      (.error "Cannot perform second derivative calculations when ad mode is 1.", st)
    else
      match compute with
      | .error e => (.error e, st)
      | .ok t => (.ok t, { st with J2cache := some t })

/-- The valuation data `gamma` consumes for one currency bucket: the
first-order gradient and the order-2 Hessian of the NPV with respect to
`pre_variables`. -/
structure NpvData where
  grad : List ℚ
  hess : RMat ℚ

/-- The tensor contraction
`np.matmul(grad_s_s_vT_pre, grad[:, None])[:, :, 0]`. -/
def tensorContract (T : List (RMat ℚ)) (g : List ℚ) : RMat ℚ :=
  T.map (fun plane => plane.map (fun row =>
    ((row.zip g).map (fun p => p.1 * p.2)).sum))

/-- The per-currency block of `Solver._gamma_inst_arr_local`:
`G @ (H @ G.T) + T ⊗ grad`, scaled entrywise by
`pre_rate_scalars[i] * pre_rate_scalars[j] / 10000`. -/
def gammaBlock (G : RMat ℚ) (T : List (RMat ℚ)) (scalars : List ℚ) (d : NpvData) :
    RMat ℚ :=
  let raw := matAddL (matMulL G (matMulL d.hess (transposeL G))) (tensorContract T d.grad)
  mkRMat (rowsOf raw) (colsOf raw)
    (fun i j => getEntry raw i j * (scalars.getD i 0 * scalars.getD j 0) / 10000)

/-- `Solver._gamma_inst_arr_local`: one cross-gamma block per currency of
the valuation (the pandas labelling is presentation and not modelled). -/
def gammaInstArrLocal (G : RMat ℚ) (T : List (RMat ℚ)) (scalars : List ℚ)
    (npv : List (String × NpvData)) : List (String × RMat ℚ) :=
  npv.map (fun p => (p.1, gammaBlock G T scalars p.2))

set_option linter.unusedVariables false in
/-- `Solver.gamma(npv, base, fx)`: raise unless the AD order is 2, then
return the local cross-gamma table.  `base` and `fx` are bound but only
read by the unreachable code after the `return`. -/
def gammaRun (ad : ℕ) (G : RMat ℚ) (T : List (RMat ℚ)) (scalars : List ℚ)
    (npv : List (String × NpvData)) (base : Option String) (fx : Option ℕ) :
    Except String (List (String × RMat ℚ)) :=
  if ad ≠ 2 then
    .error "Solver must be in ad order 2 to use gamma method."
  else .ok (gammaInstArrLocal G T scalars npv)

/-! ## `Solver._parse_instrument`

Keyword-argument dicts are association lists with Python merge semantics:
`{**a, **b}` appends `b` after `a`, and lookup takes the LAST binding of
a key, so keys of `b` override keys of `a`. -/

inductive PVal where
  | solverRef (sid : ℕ)
  | fxRef (fid : Option ℕ)
  | num (q : ℚ)
deriving DecidableEq

abbrev KwDict := List (String × PVal)

/-- Python dict lookup on the association-list model: the last binding of
a key wins, as after `{**a, **b}` merges. -/
def dictGet (d : KwDict) (k : String) : Option PVal :=
  d.foldl (fun acc p => if p.1 = k then some p.2 else acc) none

/-- An instrument specification accepted by the `Solver` constructor:
either a bare instrument or a 3-tuple of instrument, positional args
(tuple or `None`) and keyword args (dict or `None`).  Tuples of other
lengths are rejected with a `ValueError` before reaching the parse result
and are not modelled. -/
inductive InstSpec where
  | bare (inst : ℕ)
  | triple (inst : ℕ) (args : Option (List PVal)) (kwargs : Option KwDict)

/-- `Solver._parse_instrument`: a bare instrument gets
`{"solver": self, "fx": self.fx}`; a 3-tuple keeps its positional args
(defaulting `None`/`()` to `()`), and its keyword args are merged OVER
the solver/fx defaults via `{**ret2, **value[2]}`. -/
def parseInstrument (selfId : ℕ) (fx : Option ℕ) : InstSpec → ℕ × List PVal × KwDict
  | .bare inst => (inst, [], [("solver", .solverRef selfId), ("fx", .fxRef fx)])
  | .triple inst args kwargs =>
    let ret1 : List PVal := match args with
      | none => []
      | some a => if a = [] then [] else a
    let base : KwDict := [("solver", PVal.solverRef selfId), ("fx", PVal.fxRef fx)]
    let ret2 : KwDict := match kwargs with
      | none => base
      | some kw => if kw = [] then base else base ++ kw
    (inst, ret1, ret2)

/-- The caller-supplied keyword args of a specification do not bind `k`. -/
def kwargsNoKey : InstSpec → String → Prop
  | .bare _, _ => True
  | .triple _ _ none, _ => True
  | .triple _ _ (some kw), k => ∀ p ∈ kw, p.1 ≠ k

instance (v : InstSpec) (k : String) : Decidable (kwargsNoKey v k) := by
  cases v with
  | bare _ => exact .isTrue trivial
  | triple _ _ kwargs =>
    cases kwargs with
    | none => exact .isTrue trivial
    | some kw => exact inferInstanceAs (Decidable (∀ p ∈ kw, p.1 ≠ k))

/-! ## `Solver.jacobian`

The calibration state of a solver is its target vector `s` together with
the curve state `nodes` (the node values of all its curves); `iterate`
mutates only the curve state, by the given `nodesStep`.  `jacobian`
overwrites `self.s` with the rates of its own instruments priced under the
other solver (a value `priceUnderOther` computed by the external pricing
collaborators), resets the cached properties, re-iterates, and returns the
transfer matrix `grad_s_vT @ grad_v_rT` computed from the re-solved state;
`self.s` is never written again afterwards. -/

structure CalibState (ν : Type) where
  s : List ℚ
  nodes : ν
deriving DecidableEq

def jacobianRun {ν α : Type} [LinearOrderedCommRing α] (priceUnderOther : List ℚ)
    (f : CalibState ν → α) (nodesStep : CalibState ν → ν) (funcTol convTol : α)
    (maxIter : ℕ) (transferGradSvT transferGradVrT : CalibState ν → RMat ℚ)
    (st : CalibState ν) : RMat ℚ × CalibState ν :=
  let st1 : CalibState ν := { st with s := priceUnderOther }
  let st2 := (iterateRun f (fun q => { q with nodes := nodesStep q })
    funcTol convTol maxIter st1).2.2
  (matMulL (transferGradSvT st2) (transferGradVrT st2), st2)

/-! ## Claims -/

/-- Claim C1 (counterexample). The claim as stated says that when the
current objective is below `func_tol` the controller reports the
function-value convergence outcome.  With `func_tol = 5` and
`conv_tol = 2`, an objective trajectory `5, 4, ...` reaches a cycle whose
objective `4` is below `func_tol`, yet the controller reports the
tolerance outcome, because the source checks the `conv_tol` condition
first and the decrease `5 - 4 = 1` is positive and below `conv_tol`. -/
theorem iterate_funcTol_priority_counterexample :
    ((fun k : ℕ => if k = 0 then (5 : ℤ) else 4) 1 < 5) ∧
    iterateRun (fun k : ℕ => if k = 0 then (5 : ℤ) else 4) Nat.succ 5 2 7 0
      = (IterResult.convergedConv, [5, 4], 1) ∧
    IterResult.convergedConv ≠ IterResult.convergedFunc := by decide

/-- Claim C1 (amended). On each cycle of `Solver.iterate` the controller
first terminates with the tolerance outcome when the objective strictly
decreased from the previous cycle by less than `conv_tol`; only otherwise
does it terminate with the function-value outcome when the objective is
below `func_tol`; and only when neither condition holds does it compute
and apply a step and continue. -/
theorem iterate_cycle_priority {σ α : Type} [LinearOrderedCommRing α] (f : σ → α)
    (step : σ → σ) (funcTol convTol : α) (k : ℕ) (fPrev : α) (hist : List α) (st : σ) :
    (f st < fPrev ∧ fPrev - f st < convTol →
      iterateFrom f step funcTol convTol (k + 1) fPrev hist st
        = (IterResult.convergedConv, hist ++ [f st], st)) ∧
    (¬(f st < fPrev ∧ fPrev - f st < convTol) → f st < funcTol →
      iterateFrom f step funcTol convTol (k + 1) fPrev hist st
        = (IterResult.convergedFunc, hist ++ [f st], st)) ∧
    (¬(f st < fPrev ∧ fPrev - f st < convTol) → ¬(f st < funcTol) →
      iterateFrom f step funcTol convTol (k + 1) fPrev hist st
        = iterateFrom f step funcTol convTol k (f st) (hist ++ [f st]) (step st)) := by
  refine ⟨fun h => ?_, fun h1 h2 => ?_, fun h1 h2 => ?_⟩
  · simp [iterateFrom, h]
  · simp [iterateFrom, h1, h2]
  · simp [iterateFrom, h1, h2]

/-- Claim C1 (witness for the amended theorem): with `func_tol = 5`,
`conv_tol = 2`, previous objective `5` and current objective `4`, the
tolerance condition holds and the cycle reports the tolerance outcome. -/
theorem iterate_cycle_priority_witness :
    iterateFrom (fun k : ℕ => if k = 0 then (5 : ℤ) else 4) Nat.succ 5 2 (3 + 1) 5 [5] 1
      = (IterResult.convergedConv, [5] ++ [(fun k : ℕ => if k = 0 then (5 : ℤ) else 4) 1], 1) :=
  (iterate_cycle_priority (fun k : ℕ => if k = 0 then (5 : ℤ) else 4)
    Nat.succ 5 2 3 5 [5] 1).1 (by decide)

/-- Helper for C8: if at every remaining cycle neither convergence
condition holds (with the `f_prev` register threaded as `fPrevAt`), the
loop runs all cycles, returns the exhausted outcome and leaves the state
at the result of the last computed step. -/
theorem iterateFrom_exhaust {σ α : Type} [LinearOrderedCommRing α] (f : σ → α)
    (step : σ → σ) (funcTol convTol : α) :
    ∀ (k : ℕ) (fPrev : α) (hist : List α) (st : σ),
      (∀ i < k, ¬(f (step^[i] st) < fPrevAt f step fPrev st i ∧
          fPrevAt f step fPrev st i - f (step^[i] st) < convTol) ∧
          ¬(f (step^[i] st) < funcTol)) →
      (iterateFrom f step funcTol convTol k fPrev hist st).1 = IterResult.maxIterExhausted ∧
      (iterateFrom f step funcTol convTol k fPrev hist st).2.2 = step^[k] st := by
  intro k
  induction k with
  | zero => intro fPrev hist st _; exact ⟨rfl, rfl⟩
  | succ k ih =>
    intro fPrev hist st h
    have h0 := h 0 (Nat.succ_pos k)
    simp only [Function.iterate_zero_apply, fPrevAt] at h0
    have hstep : iterateFrom f step funcTol convTol (k + 1) fPrev hist st
        = iterateFrom f step funcTol convTol k (f st) (hist ++ [f st]) (step st) := by
      simp [iterateFrom, h0.1, h0.2]
    rw [hstep]
    have h' : ∀ i < k, ¬(f (step^[i] (step st)) < fPrevAt f step (f st) (step st) i ∧
        fPrevAt f step (f st) (step st) i - f (step^[i] (step st)) < convTol) ∧
        ¬(f (step^[i] (step st)) < funcTol) := by
      intro i hi
      have := h (i + 1) (Nat.succ_lt_succ hi)
      cases i with
      | zero =>
        simpa [fPrevAt, Function.iterate_succ_apply] using this
      | succ i =>
        simpa [fPrevAt, Function.iterate_succ_apply] using this
    have := ih (f st) (hist ++ [f st]) (step st) h'
    rw [Function.iterate_succ_apply]
    exact this

/-- Claim C8. When no cycle of the loop meets either convergence
condition, `Solver.iterate` runs the full `max_iter` cycles and returns
normally (the model is a total function delivering the exhausted outcome;
the source's `raise` on this path is commented out in favour of a printed
message), leaving the curve state at whatever the last computed step
produced, namely `step` applied `max_iter` times. -/
theorem iterate_max_iter_returns_normally {σ α : Type} [LinearOrderedCommRing α]
    (f : σ → α) (step : σ → σ) (funcTol convTol : α) (maxIter : ℕ) (st : σ)
    (h : ∀ i < maxIter, ¬(f (step^[i] st) < fPrevAt f step (fPrevInit α) st i ∧
        fPrevAt f step (fPrevInit α) st i - f (step^[i] st) < convTol) ∧
        ¬(f (step^[i] st) < funcTol)) :
    (iterateRun f step funcTol convTol maxIter st).1 = IterResult.maxIterExhausted ∧
    (iterateRun f step funcTol convTol maxIter st).2.2 = step^[maxIter] st :=
  iterateFrom_exhaust f step funcTol convTol maxIter (fPrevInit α) [] st h

/-- Claim C8 (witness): a constant objective of `1` with tolerances `1/2`
(scaled to the integers as objective `2`, tolerances `1`) never meets
either convergence condition, so three cycles exhaust `max_iter = 3` and
leave the state stepped three times. -/
theorem iterate_max_iter_returns_normally_witness :
    (iterateRun (fun _ : ℕ => (2 : ℤ)) Nat.succ 1 1 3 0).1 = IterResult.maxIterExhausted ∧
    (iterateRun (fun _ : ℕ => (2 : ℤ)) Nat.succ 1 1 3 0).2.2 = Nat.succ^[3] 0 :=
  iterate_max_iter_returns_normally (fun _ : ℕ => (2 : ℤ)) Nat.succ 1 1 3 0 (by decide)

/-- Helper for C10: `Solver.iterate` never writes the target vector `s`;
only curve nodes are overwritten inside the loop. -/
theorem iterateFrom_preserves_s {ν α : Type} [LinearOrderedCommRing α]
    (f : CalibState ν → α) (nodesStep : CalibState ν → ν) (funcTol convTol : α) :
    ∀ (k : ℕ) (fPrev : α) (hist : List α) (st : CalibState ν),
      ((iterateFrom f (fun q => { q with nodes := nodesStep q })
          funcTol convTol k fPrev hist st).2.2).s = st.s := by
  intro k
  induction k with
  | zero => intro fPrev hist st; rfl
  | succ k ih =>
    intro fPrev hist st
    by_cases h1 : f st < fPrev ∧ fPrev - f st < convTol
    · simp [iterateFrom, h1]
    · by_cases h2 : f st < funcTol
      · simp [iterateFrom, h1, h2]
      · have hstep : iterateFrom f (fun q => { q with nodes := nodesStep q })
            funcTol convTol (k + 1) fPrev hist st
            = iterateFrom f (fun q => { q with nodes := nodesStep q }) funcTol convTol k
              (f st) (hist ++ [f st]) { st with nodes := nodesStep st } := by
          simp [iterateFrom, h1, h2]
        rw [hstep, ih]

/-- Claim C10. `Solver.jacobian(other)` permanently overwrites the
solver's target vector `s` with the rates of its instruments priced under
the other solver and re-iterates against those targets; the original
targets are not restored after the transfer matrix is returned, so
whenever the re-priced rates differ from the original targets the
calibration state after the call differs from the state before it. -/
theorem jacobian_overwrites_targets {ν α : Type} [LinearOrderedCommRing α]
    (priceUnderOther : List ℚ) (f : CalibState ν → α) (nodesStep : CalibState ν → ν)
    (funcTol convTol : α) (maxIter : ℕ)
    (transferGradSvT transferGradVrT : CalibState ν → RMat ℚ) (st : CalibState ν)
    (hneq : priceUnderOther ≠ st.s) :
    (jacobianRun priceUnderOther f nodesStep funcTol convTol maxIter
        transferGradSvT transferGradVrT st).2.s = priceUnderOther ∧
    (jacobianRun priceUnderOther f nodesStep funcTol convTol maxIter
        transferGradSvT transferGradVrT st).2 ≠ st := by
  have hs : (jacobianRun priceUnderOther f nodesStep funcTol convTol maxIter
      transferGradSvT transferGradVrT st).2.s = priceUnderOther := by
    show ((iterateRun f (fun q => { q with nodes := nodesStep q }) funcTol convTol
      maxIter { st with s := priceUnderOther }).2.2).s = priceUnderOther
    rw [iterateRun, iterateFrom_preserves_s]
  refine ⟨hs, fun hcontra => hneq ?_⟩
  rw [← hs, hcontra]

/-- Claim C10 (witness): re-pricing under the other solver yields targets
`[2]` differing from the original `[1]`, so the state after `jacobian`
carries `s = [2]` and differs from the state before. -/
theorem jacobian_overwrites_targets_witness :
    (jacobianRun [2] (fun _ : CalibState ℕ => (2 : ℤ)) (fun q => q.nodes + 1) 1 1 3
        (fun _ => [[1]]) (fun _ => [[1]]) ⟨[1], 0⟩).2.s = [2] ∧
    (jacobianRun [2] (fun _ : CalibState ℕ => (2 : ℤ)) (fun q => q.nodes + 1) 1 1 3
        (fun _ => [[1]]) (fun _ => [[1]]) ⟨[1], 0⟩).2 ≠ ⟨[1], 0⟩ :=
  jacobian_overwrites_targets [2] (fun _ : CalibState ℕ => (2 : ℤ)) (fun q => q.nodes + 1)
    1 1 3 (fun _ => [[1]]) (fun _ => [[1]]) ⟨[1], 0⟩ (by decide)

/-- Claim C2 (code evaluated at the failing input). A chain of two
already-solved pre-solvers, each with one instrument, one variable and
sensitivity `[[2]]` resp. `[[3]]`, under a solver with one instrument,
one variable, sensitivity `[[5]]` and no coupling to upstream variables:
the claimed block lower-triangular aggregation is
`[[2,0,0],[0,3,0],[0,0,5]]`, but the source's slice `A[i:m, j:n]` uses
the link's `pre_m, pre_n` as END bounds, so for the second link the slice
`A[1:1, 1:1]` is empty and its diagonal block is silently dropped,
leaving `[[2,0,0],[0,0,0],[0,0,5]]`.  With a larger second link
(`pre_m = pre_n = 2`) the mis-bounded slice has the wrong shape and the
assignment raises a broadcast error instead. -/
theorem grad_s_vT_pre_second_link_diagonal_dropped :
    gradSvTPre (.node (.cons (.node .nil 1 1 [[(2 : ℤ)]]) [[0]]
        (.cons (.node .nil 1 1 [[3]]) [[0]] .nil)) 1 1 [[5]])
      = Except.ok [[2, 0, 0], [0, 0, 0], [0, 0, 5]] ∧
    gradSvTPre (.node .nil 1 1 [[(3 : ℤ)]]) = Except.ok [[3]] ∧
    getEntry ([[2, 0, 0], [0, 0, 0], [0, 0, 5]] : RMat ℤ) 1 1 = 0 ∧
    (0 : ℤ) ≠ 3 ∧
    gradSvTPre (.node (.cons (.node .nil 1 1 [[(2 : ℤ)]]) [[0]]
        (.cons (.node .nil 2 2 [[3, 0], [0, 3]]) [[0], [0]] .nil)) 1 1 [[5]])
      = Except.error "could not broadcast input array into output slice" := by decide

/-- Claim C3 (counterexample). When the latest objective equals the
previous iteration's objective (`f_prev = f = 1`), the claim says the
damping factor is doubled (to 2000); the source's condition
`self.f_prev < self.f.real` is false at equality, so the factor is
quartered to 250 instead. -/
theorem lm_lambda_equal_objective_counterexample :
    (lmStep (1 : Matrix (Fin 1) (Fin 1) ℚ) 1 1000 1 1 (fun _ => 0) (fun _ => 0)).1 = 250 ∧
    (lmStep (1 : Matrix (Fin 1) (Fin 1) ℚ) 1 1000 1 1 (fun _ => 0) (fun _ => 0)).1
      ≠ 1000 * 2 := by
  constructor
  · norm_num [lmStep, lmUpdate]
  · norm_num [lmStep, lmUpdate]

/-- Claim C3 (amended). Under Levenberg-Marquardt the damping factor
starts at 1000; it is doubled exactly when the latest objective is
strictly greater than the stored previous objective and quartered
otherwise — in particular it is quartered, not doubled, when the two are
equal; and the step solves `(J·W·Jᵀ + λ·I)·δ = -(1/2)·∇f` with the
updated `λ` and returns `v' = v + δ`. -/
theorem levenberg_marquardt_step_spec {n m : ℕ} (J : Matrix (Fin n) (Fin m) ℚ)
    (W : Matrix (Fin m) (Fin m) ℚ) (lambd fPrev f : ℚ) (gradf v : Fin n → ℚ)
    (hdet : IsUnit (lmMatrix J W (lmUpdate lambd fPrev f)).det) :
    lambdInit ℚ = 1000 ∧
    (fPrev < f → lmUpdate lambd fPrev f = lambd * 2) ∧
    (¬ fPrev < f → lmUpdate lambd fPrev f = lambd * (1 / 4)) ∧
    (lmMatrix J W (lmUpdate lambd fPrev f)).mulVec
        (lmDelta J W (lmUpdate lambd fPrev f) gradf) = (-(1 / 2) : ℚ) • gradf ∧
    lmStep J W lambd fPrev f gradf v
      = (lmUpdate lambd fPrev f, v + lmDelta J W (lmUpdate lambd fPrev f) gradf) := by
  refine ⟨rfl, fun h => ?_, fun h => ?_, ?_, rfl⟩
  · simp [lmUpdate, h]
  · simp [lmUpdate, h]
  · exact linSolve_spec _ _ hdet

/-- Claim C3 (witness for the amended theorem): a one-variable,
one-instrument system with `J = W = I`, equal previous and current
objectives and gradient `2`; the damping factor becomes 250 and the step
solves the damped normal equations. -/
theorem levenberg_marquardt_step_spec_witness :
    lambdInit ℚ = 1000 ∧
    ((1 : ℚ) < 1 → lmUpdate 1000 1 1 = 1000 * 2) ∧
    (¬ (1 : ℚ) < 1 → lmUpdate 1000 1 1 = 1000 * (1 / 4)) ∧
    (lmMatrix (1 : Matrix (Fin 1) (Fin 1) ℚ) 1 (lmUpdate 1000 1 1)).mulVec
        (lmDelta (1 : Matrix (Fin 1) (Fin 1) ℚ) 1 (lmUpdate 1000 1 1)
          (fun _ : Fin 1 => (2 : ℚ)))
      = (-(1 / 2) : ℚ) • (fun _ : Fin 1 => (2 : ℚ)) ∧
    lmStep (1 : Matrix (Fin 1) (Fin 1) ℚ) 1 1000 1 1 (fun _ : Fin 1 => (2 : ℚ))
        (fun _ : Fin 1 => (0 : ℚ))
      = (lmUpdate 1000 1 1, (fun _ : Fin 1 => (0 : ℚ)) +
          lmDelta (1 : Matrix (Fin 1) (Fin 1) ℚ) 1 (lmUpdate 1000 1 1)
            (fun _ : Fin 1 => (2 : ℚ))) :=
  levenberg_marquardt_step_spec (1 : Matrix (Fin 1) (Fin 1) ℚ) 1 1000 1 1
    (fun _ : Fin 1 => (2 : ℚ)) (fun _ : Fin 1 => (0 : ℚ)) (by
      refine isUnit_iff_ne_zero.mpr ?_
      norm_num [lmMatrix, lmUpdate, Matrix.det_fin_one, Matrix.transpose_one,
        Matrix.add_apply, Matrix.smul_apply, Matrix.one_apply_eq, smul_eq_mul])

/-- Claim C4. The `gauss_newton` branch of `Solver._update_step_`: when
the instrument count equals the variable count the step `δ` solves
`Jᵀ·δ = -error` directly, otherwise `δ` solves the normal equations
`(J·W·Jᵀ)·δ = -(1/2)·∇f`; in both cases the updated vector is
`v' = v + δ`. -/
theorem gauss_newton_step_spec (n m : ℕ) (J : Matrix (Fin n) (Fin m) ℚ)
    (W : Matrix (Fin m) (Fin m) ℚ) (x : Fin m → ℚ) (gradf v : Fin n → ℚ)
    (hsq : ∀ h : n = m, IsUnit (gnSquareA h J).det)
    (hrect : n ≠ m → IsUnit (J * W * J.transpose).det) :
    ∃ δ : Fin n → ℚ, gnStep n m J W x gradf v = v + δ ∧
      (∀ h : n = m, (gnSquareA h J).mulVec δ = fun i => -(x (Fin.cast h i))) ∧
      (n ≠ m → (J * W * J.transpose).mulVec δ = (-(1 / 2) : ℚ) • gradf) := by
  by_cases h : n = m
  · refine ⟨linSolve (gnSquareA h J) (fun i => -(x (Fin.cast h i))), ?_, ?_, ?_⟩
    · simp [gnStep, h]
    · intro h2
      exact linSolve_spec _ _ (hsq h)
    · intro hne
      exact absurd h hne
  · refine ⟨linSolve (J * W * J.transpose) ((-(1 / 2) : ℚ) • gradf), ?_, ?_, ?_⟩
    · simp [gnStep, h]
    · intro h2
      exact absurd h2 h
    · intro _
      exact linSolve_spec _ _ (hrect h)

/-- Claim C4 (witness): a square one-variable, one-instrument system
with `J = [[2]]`, error `[3]`; the step solves `Jᵀ·δ = -error`. -/
theorem gauss_newton_step_spec_witness :
    ∃ δ : Fin 1 → ℚ,
      gnStep 1 1 (Matrix.of (fun _ _ : Fin 1 => (2 : ℚ))) 1 (fun _ : Fin 1 => (3 : ℚ))
          (fun _ : Fin 1 => (0 : ℚ)) (fun _ : Fin 1 => (0 : ℚ))
        = (fun _ : Fin 1 => (0 : ℚ)) + δ ∧
      (∀ h : (1 : ℕ) = 1, (gnSquareA h (Matrix.of (fun _ _ : Fin 1 => (2 : ℚ)))).mulVec δ
        = fun i => -((fun _ : Fin 1 => (3 : ℚ)) (Fin.cast h i))) ∧
      ((1 : ℕ) ≠ 1 → ((Matrix.of (fun _ _ : Fin 1 => (2 : ℚ))) * 1 *
          (Matrix.of (fun _ _ : Fin 1 => (2 : ℚ))).transpose).mulVec δ
        = (-(1 / 2) : ℚ) • (fun _ : Fin 1 => (0 : ℚ))) :=
  gauss_newton_step_spec 1 1 (Matrix.of (fun _ _ : Fin 1 => (2 : ℚ))) 1
    (fun _ : Fin 1 => (3 : ℚ)) (fun _ : Fin 1 => (0 : ℚ)) (fun _ : Fin 1 => (0 : ℚ))
    (fun h => by
      refine isUnit_iff_ne_zero.mpr ?_
      norm_num [gnSquareA, Matrix.det_fin_one, Matrix.transpose_apply])
    (fun h => absurd rfl h)

/-- Claim C5 (counterexample). The claim says the target vector `s` is
restored on every path out of the dual-number sensitivity strategy,
including when the computation inside raises.  When the inner step raises
(e.g. a singular-matrix error from `np.linalg.solve`), the source has no
`try`/`finally` and the exception propagates with the `Dual`-tagged
targets still installed: from `s = [plain 1]` the state after the failed
call holds `s = [dual 1 0] ≠ [plain 1]`. -/
theorem scoped_mutation_counterexample :
    (gradSvTDual (fun _ => Except.error "Singular matrix") ⟨1, [SEntry.plain 1]⟩).2
      = ⟨1, [SEntry.dual 1 0]⟩ ∧
    (gradSvTDual (fun _ => Except.error "Singular matrix") ⟨1, [SEntry.plain 1]⟩).2
      ≠ ⟨1, [SEntry.plain 1]⟩ ∧
    (gradSvTFixedPoint (fun _ => Except.error "Singular matrix") ⟨1, [SEntry.plain 1]⟩).2
      ≠ ⟨1, [SEntry.plain 1]⟩ := by decide

/-- Claim C5 (amended). On successful completion the dual-number strategy
restores `s` exactly (the whole state is unchanged), and the fixed-point
strategy restores `s` but sets the differentiation order to the constant
1 — the solver's iteration default — rather than its prior value; when
the inner computation raises, the exception propagates with the re-tagged
targets (and, for the fixed-point strategy, order 2) still installed, so
prior state is NOT restored on error paths. -/
theorem scoped_mutation_restoration (inner inner2 : SensState → Except String (RMat ℚ))
    (st : SensState) :
    (∀ g, inner { st with s := retagDual st.s } = Except.ok g →
      gradSvTDual inner st = (Except.ok g, st)) ∧
    (∀ e, inner { st with s := retagDual st.s } = Except.error e →
      gradSvTDual inner st = (Except.error e, { st with s := retagDual st.s })) ∧
    (∀ g, inner2 ⟨2, retagDual2 st.s⟩ = Except.ok g →
      gradSvTFixedPoint inner2 st = (Except.ok g, ⟨1, st.s⟩)) ∧
    (∀ e, inner2 ⟨2, retagDual2 st.s⟩ = Except.error e →
      gradSvTFixedPoint inner2 st = (Except.error e, ⟨2, retagDual2 st.s⟩)) := by
  refine ⟨fun g hg => ?_, fun e he => ?_, fun g hg => ?_, fun e he => ?_⟩
  · simp [gradSvTDual, hg]
  · simp [gradSvTDual, he]
  · simp [gradSvTFixedPoint, hg]
  · simp [gradSvTFixedPoint, he]

/-- Claim C5 (witness for the amended theorem): an inner computation that
succeeds with the matrix `[[7]]` leaves the dual strategy's state fully
restored. -/
theorem scoped_mutation_restoration_witness :
    gradSvTDual (fun _ => Except.ok [[7]]) ⟨1, [SEntry.plain 1]⟩
      = (Except.ok [[7]], ⟨1, [SEntry.plain 1]⟩) :=
  (scoped_mutation_restoration (fun _ => Except.ok [[7]]) (fun _ => Except.ok [[7]])
    ⟨1, [SEntry.plain 1]⟩).1 [[7]] rfl

/-- Claim C6 (counterexample). The claim says that at differentiation
order 1 a `J2` request fails with a state error rather than returning a
value.  But the ad-order guard of `Solver.J2` sits inside the cache-miss
branch, and `_set_ad_order` does not clear caches: request `J2` at order
2 (which computes and caches the tensor), switch the order back to 1 —
the very switching the claim contemplates — and request `J2` again: the
solver is at order 1 yet the request returns the cached tensor, not an
error. -/
theorem j2_cached_at_order1_counterexample :
    (setAdOrder 1 ((J2run (Except.ok [[[(1 : ℚ)]]]) ⟨2, none⟩).2)).ad = 1 ∧
    (J2run (Except.ok [[[(1 : ℚ)]]])
        (setAdOrder 1 ((J2run (Except.ok [[[(1 : ℚ)]]]) ⟨2, none⟩).2))).1
      = Except.ok [[[(1 : ℚ)]]] ∧
    (∀ e, (J2run (Except.ok [[[(1 : ℚ)]]])
        (setAdOrder 1 ((J2run (Except.ok [[[(1 : ℚ)]]]) ⟨2, none⟩).2))).1
      ≠ Except.error e) := by
  refine ⟨rfl, rfl, fun e h => ?_⟩
  simp [J2run, setAdOrder] at h

/-- Claim C6 (amended). While the differentiation order is 1, a `gamma`
request always fails with a state error, and a `J2` request fails with a
state error provided no `J2` tensor is cached — the guard sits inside the
cache-miss branch, and since switching the differentiation order does not
clear caches, a tensor cached at order 2 is returned without error even
at order 1.  After switching the solver to order 2 the same request
succeeds. -/
theorem second_order_requires_ad2 (compute : Except String (List (RMat ℚ)))
    (t tc : List (RMat ℚ)) (G : RMat ℚ) (T : List (RMat ℚ)) (scalars : List ℚ)
    (npv : List (String × NpvData)) (base : Option String) (fx : Option ℕ)
    (hc : compute = Except.ok t) :
    (∃ e, (J2run compute ⟨1, none⟩).1 = Except.error e) ∧
    (J2run compute ⟨2, none⟩).1 = Except.ok t ∧
    (J2run compute ⟨1, some tc⟩).1 = Except.ok tc ∧
    (∃ e, gammaRun 1 G T scalars npv base fx = Except.error e) ∧
    gammaRun 2 G T scalars npv base fx = Except.ok (gammaInstArrLocal G T scalars npv) := by
  subst hc
  exact ⟨⟨_, rfl⟩, rfl, rfl, ⟨_, rfl⟩, rfl⟩

/-- Claim C6 (witness): a concrete successful second-order computation,
with an empty cache at both orders and a distinct cached tensor at
order 1. -/
theorem second_order_requires_ad2_witness :
    (∃ e, (J2run (Except.ok [[[(1 : ℚ)]]]) ⟨1, none⟩).1 = Except.error e) ∧
    (J2run (Except.ok [[[(1 : ℚ)]]]) ⟨2, none⟩).1 = Except.ok [[[(1 : ℚ)]]] ∧
    (J2run (Except.ok [[[(1 : ℚ)]]]) ⟨1, some [[[(2 : ℚ)]]]⟩).1 = Except.ok [[[(2 : ℚ)]]] ∧
    (∃ e, gammaRun 1 [[1]] [[[1]]] [1] [] none none = Except.error e) ∧
    gammaRun 2 [[1]] [[[1]]] [1] [] none none
      = Except.ok (gammaInstArrLocal [[1]] [[[1]]] [1] []) :=
  second_order_requires_ad2 (Except.ok [[[(1 : ℚ)]]]) [[[(1 : ℚ)]]] [[[(2 : ℚ)]]]
    [[1]] [[[1]]] [1] [] none none rfl

/-- Claim C7 (counterexample). The claim says the parsed keyword args
always carry the owning solver under the key `"solver"` regardless of
caller-supplied keyword args; but the source merges the caller's dict
OVER the defaults (`{**ret2, **value[2]}`), so a caller binding
`"solver"` to another solver (id 99) wins over the owning solver (id 7). -/
theorem parse_instrument_override_counterexample :
    dictGet (parseInstrument 7 (some 3)
        (InstSpec.triple 0 none (some [("solver", PVal.solverRef 99)]))).2.2 "solver"
      = some (PVal.solverRef 99) ∧
    dictGet (parseInstrument 7 (some 3)
        (InstSpec.triple 0 none (some [("solver", PVal.solverRef 99)]))).2.2 "solver"
      ≠ some (PVal.solverRef 7) := by decide

/-- Helper for C7: folding the dict-lookup accumulator over bindings none
of which match the key leaves the accumulator unchanged. -/
theorem dictGet_foldl_no_key (k : String) :
    ∀ (kw : KwDict) (acc : Option PVal), (∀ p ∈ kw, p.1 ≠ k) →
      kw.foldl (fun acc p => if p.1 = k then some p.2 else acc) acc = acc := by
  intro kw
  induction kw with
  | nil => intro acc _; rfl
  | cons hd tl ih =>
    intro acc h
    have hhd : hd.1 ≠ k := h hd (List.mem_cons_self hd tl)
    have htl : ∀ p ∈ tl, p.1 ≠ k := fun p hp => h p (List.mem_cons_of_mem hd hp)
    simp only [List.foldl_cons, if_neg hhd]
    exact ih acc htl

/-- Claim C7 (amended). The parsed triple's keyword args carry the
owning solver under `"solver"` and the solver's own FX object under
`"fx"` as DEFAULTS: they are guaranteed to be those values only when the
caller-supplied keyword args do not themselves bind `"solver"` resp.
`"fx"`, since caller bindings are merged over the defaults and take
precedence. -/
theorem parse_instrument_defaults (selfId : ℕ) (fx : Option ℕ) (v : InstSpec)
    (hs : kwargsNoKey v "solver") (hf : kwargsNoKey v "fx") :
    dictGet (parseInstrument selfId fx v).2.2 "solver" = some (PVal.solverRef selfId) ∧
    dictGet (parseInstrument selfId fx v).2.2 "fx" = some (PVal.fxRef fx) := by
  cases v with
  | bare inst => exact ⟨rfl, rfl⟩
  | triple inst args kwargs =>
    cases kwargs with
    | none => exact ⟨rfl, rfl⟩
    | some kw =>
      by_cases hkw : kw = []
      · subst hkw
        exact ⟨rfl, rfl⟩
      · have hs' : ∀ p ∈ kw, p.1 ≠ "solver" := hs
        have hf' : ∀ p ∈ kw, p.1 ≠ "fx" := hf
        have heq : (parseInstrument selfId fx (InstSpec.triple inst args (some kw))).2.2
            = [("solver", PVal.solverRef selfId), ("fx", PVal.fxRef fx)] ++ kw := by
          simp [parseInstrument, hkw]
        rw [heq]
        constructor
        · simp only [dictGet, List.foldl_append]
          rw [dictGet_foldl_no_key _ kw _ hs']
          rfl
        · simp only [dictGet, List.foldl_append]
          rw [dictGet_foldl_no_key _ kw _ hf']
          rfl

/-- Claim C7 (witness for the amended theorem): a 3-tuple whose caller
keyword args bind only `"other_arg"` keeps the solver and fx defaults. -/
theorem parse_instrument_defaults_witness :
    dictGet (parseInstrument 7 (some 3)
        (InstSpec.triple 0 (some [PVal.num 1]) (some [("other_arg", PVal.num 10)]))).2.2
      "solver" = some (PVal.solverRef 7) ∧
    dictGet (parseInstrument 7 (some 3)
        (InstSpec.triple 0 (some [PVal.num 1]) (some [("other_arg", PVal.num 10)]))).2.2
      "fx" = some (PVal.fxRef (some 3)) :=
  parse_instrument_defaults 7 (some 3)
    (InstSpec.triple 0 (some [PVal.num 1]) (some [("other_arg", PVal.num 10)]))
    (by decide) (by decide)

/-- Claim C9. With the differentiation order at 2, `Solver.gamma` returns
exactly the local-currency-only cross-gamma table for every value of the
`base` and `fx` arguments: they never affect the result, which always
equals the `base = None, fx = None` call, and no missing-FX configuration
error can be raised — the code handling `base`, `fx` and that error sits
after an unconditional `return` and is unreachable. -/
theorem gamma_ignores_base_and_fx (G : RMat ℚ) (T : List (RMat ℚ)) (scalars : List ℚ)
    (npv : List (String × NpvData)) (base : Option String) (fx : Option ℕ) :
    gammaRun 2 G T scalars npv base fx = Except.ok (gammaInstArrLocal G T scalars npv) ∧
    gammaRun 2 G T scalars npv base fx = gammaRun 2 G T scalars npv none none :=
  ⟨rfl, rfl⟩
